import Mathlib

/-!
# Verification of the `ray-tracing` crate

A shallow embedding of the crate's data model and the operations the
specification talks about, followed by theorems settling the spec's claims.

Modelling conventions:

* `f32` scalars are modelled as exact rationals (`ℚ`).  The finite values the
  claims exercise are all exactly representable; where the code stores
  `f32::INFINITY` in an interval bound we use `WithTop ℚ` (written `Qinf`),
  whose `⊤` behaves like `+∞` under `<` exactly as the float infinity does
  for the comparisons the code performs.
* `f32::sqrt` is modelled by `ratSqrt`, an exact rational square root on
  perfect squares (the only points at which concrete evaluations are made);
  structural claims about root selection are stated in terms of the same
  `ratSqrt` expression on both sides, so they do not depend on its values.
* glam's `Vec3` is modelled componentwise; `Rc<dyn Material>` is modelled as
  an abstract material identifier (`ℕ`), and the randomized
  `Material::scatter` as an explicit function from the material id, incoming
  ray, and hit record to an optional `(attenuation, scattered)` pair,
  mirroring its bool-with-out-parameters signature.
-/

namespace RayTracing

/-- Interval bounds: an `f32` value that may be `+∞` (`f32::INFINITY`). -/
abbrev Qinf := WithTop ℚ

/-- Model of `f32::sqrt` on nonnegative rationals: exact whenever the
argument is the square of a rational (numerator and denominator are perfect
squares), which covers every concrete evaluation below. -/
def ratSqrt (q : ℚ) : ℚ :=
  ((Nat.sqrt q.num.toNat : ℕ) : ℚ) / ((Nat.sqrt q.den : ℕ) : ℚ)

theorem ratSqrt_nonneg (q : ℚ) : 0 ≤ ratSqrt q := by
  unfold ratSqrt
  positivity

/-- glam `Vec3` with exact rational components. -/
structure Vec3 where
  x : ℚ
  y : ℚ
  z : ℚ
deriving DecidableEq

namespace Vec3

@[ext]
theorem ext' {a b : Vec3} (hx : a.x = b.x) (hy : a.y = b.y) (hz : a.z = b.z) :
    a = b := by
  cases a; cases b; simp_all

/-- glam `Vec3::ZERO` (also the `Default` value). -/
def zero : Vec3 := ⟨0, 0, 0⟩

instance : Add Vec3 := ⟨fun a b => ⟨a.x + b.x, a.y + b.y, a.z + b.z⟩⟩

instance : Sub Vec3 := ⟨fun a b => ⟨a.x - b.x, a.y - b.y, a.z - b.z⟩⟩

/-- Componentwise product (glam's `Vec3 * Vec3`). -/
instance : Mul Vec3 := ⟨fun a b => ⟨a.x * b.x, a.y * b.y, a.z * b.z⟩⟩

/-- Scalar multiple `k * v` (`f32 * Vec3`). -/
instance : HMul ℚ Vec3 Vec3 := ⟨fun k v => ⟨k * v.x, k * v.y, k * v.z⟩⟩

/-- Division of a vector by a scalar (`Vec3 / f32`). -/
instance : HDiv Vec3 ℚ Vec3 := ⟨fun v k => ⟨v.x / k, v.y / k, v.z / k⟩⟩

/-- glam `Vec3::dot`. -/
def dot (a b : Vec3) : ℚ := a.x * b.x + a.y * b.y + a.z * b.z

/-- glam `Vec3::length_squared` (`self.dot(self)`). -/
def lengthSquared (v : Vec3) : ℚ := v.dot v

/-- glam `Vec3::length` (`sqrt(length_squared)`). -/
def length (v : Vec3) : ℚ := ratSqrt v.lengthSquared

/-- glam `Vec3::normalize` (`self / self.length()`). -/
def normalize (v : Vec3) : Vec3 := v / v.length

theorem add_def (a b : Vec3) : a + b = ⟨a.x + b.x, a.y + b.y, a.z + b.z⟩ := rfl

theorem sub_def (a b : Vec3) : a - b = ⟨a.x - b.x, a.y - b.y, a.z - b.z⟩ := rfl

theorem smul_def (k : ℚ) (v : Vec3) : k * v = ⟨k * v.x, k * v.y, k * v.z⟩ := rfl

theorem lengthSquared_nonneg (v : Vec3) : 0 ≤ v.lengthSquared := by
  unfold lengthSquared dot
  nlinarith [mul_self_nonneg v.x, mul_self_nonneg v.y, mul_self_nonneg v.z]

theorem lengthSquared_pos {v : Vec3} (hv : v ≠ zero) : 0 < v.lengthSquared := by
  rcases lt_or_eq_of_le (lengthSquared_nonneg v) with h | h
  · exact h
  · exfalso
    apply hv
    unfold lengthSquared dot at h
    have hx : v.x = 0 := by nlinarith [mul_self_nonneg v.x, mul_self_nonneg v.y, mul_self_nonneg v.z]
    have hy : v.y = 0 := by nlinarith [mul_self_nonneg v.x, mul_self_nonneg v.y, mul_self_nonneg v.z]
    have hz : v.z = 0 := by nlinarith [mul_self_nonneg v.x, mul_self_nonneg v.y, mul_self_nonneg v.z]
    exact ext' hx hy hz

end Vec3

/-- `Point3 = Vec3` (src/src/lib.rs). -/
abbrev Point3 := Vec3

/-- `Ray` (src/src/ray.rs): origin and direction. -/
structure Ray where
  orig : Point3
  dir : Vec3
deriving DecidableEq

/-- `Ray::at` (src/src/ray.rs): `orig + t * dir`. -/
def Ray.at (r : Ray) (t : ℚ) : Point3 := r.orig + t * r.dir

/-- `Interval<T>` (src/src/interval.rs). -/
structure Interval (α : Type) where
  min : α
  max : α

/-- `Interval::new` (src/src/interval.rs). -/
def Interval.new {α : Type} (min max : α) : Interval α := ⟨min, max⟩

/-- `Interval::contains` (src/src/interval.rs): `min <= x && x <= max`. -/
def Interval.contains {α : Type} [LinearOrder α] (i : Interval α) (x : α) : Bool :=
  decide (i.min ≤ x) && decide (x ≤ i.max)

/-- `Interval::surrounds` (src/src/interval.rs): `min < x && x < max`. -/
def Interval.surrounds {α : Type} [LinearOrder α] (i : Interval α) (x : α) : Bool :=
  decide (i.min < x) && decide (x < i.max)

/-- `Interval::clamp` (src/src/interval.rs): match with guards
`x < min => min`, `x > max => max`, otherwise `x`. -/
def Interval.clamp {α : Type} [LinearOrder α] (i : Interval α) (x : α) : α :=
  if x < i.min then i.min else if x > i.max then i.max else x

/-- `Colour` (src/src/colour.rs): a newtype over `Vec3`. -/
structure Colour where
  vec : Vec3
deriving DecidableEq

namespace Colour

/-- `Colour::new` (src/src/colour.rs). -/
def new (r g b : ℚ) : Colour := ⟨⟨r, g, b⟩⟩

/-- `Colour::r`. -/
def r (c : Colour) : ℚ := c.vec.x

/-- `Colour::g`. -/
def g (c : Colour) : ℚ := c.vec.y

/-- `Colour::b`. -/
def b (c : Colour) : ℚ := c.vec.z

/-- `Colour::default()` (derived `Default`, the zero vector). -/
def default : Colour := ⟨Vec3.zero⟩

/-- `Colour * Colour` (componentwise, via `Vec3 * Vec3`). -/
instance : Mul Colour := ⟨fun a b => ⟨a.vec * b.vec⟩⟩

/-- `f32 * Colour` (scalar multiple). -/
instance : HMul ℚ Colour Colour := ⟨fun k c => ⟨⟨k * c.vec.x, k * c.vec.y, k * c.vec.z⟩⟩⟩

instance : Add Colour := ⟨fun a b => ⟨a.vec + b.vec⟩⟩

end Colour

/-- `HitRecord` (src/src/hittable/hit_record.rs): point, normal, optional
material (modelled as a material identifier), parametric distance and facing
flag. -/
structure HitRecord where
  p : Point3
  normal : Vec3
  mat : Option ℕ
  t : ℚ
  front_face : Bool
deriving DecidableEq

namespace HitRecord

/-- The derived `Default` value of `HitRecord`. -/
def default : HitRecord := ⟨Vec3.zero, Vec3.zero, none, 0, false⟩

/-- `HitRecord::set_face_normal` (src/src/hittable/hit_record.rs):
`front_face = dir ⬝ outward < 0`; `normal = outward` when front facing,
`outward * -1.0` otherwise. -/
def setFaceNormal (rec : HitRecord) (r : Ray) (outward_normal : Vec3) : HitRecord :=
  let front_face := decide (r.dir.dot outward_normal < 0)
  { rec with
    front_face := front_face
    normal := if front_face then outward_normal else (-1 : ℚ) * outward_normal }

end HitRecord

/-- `Metal` (src/src/material/metal.rs): albedo and fuzz. -/
structure Metal where
  albedo : Colour
  fuzz : ℚ

/-- `Metal::new` (src/src/material/metal.rs):
`fuzz: if fuzz > 1.0 { 1.0 } else { fuzz }`. -/
def Metal.new (albedo : Colour) (fuzz : ℚ) : Metal :=
  { albedo := albedo, fuzz := if fuzz > 1 then 1 else fuzz }

/-- `Sphere` (src/src/sphere.rs): center, radius and material
(`Rc<dyn Material>`, modelled as a material identifier). -/
structure Sphere where
  center : Point3
  radius : ℚ
  mat : ℕ

namespace Sphere

/-- `Sphere::mat` (the `Hittable::mat` impl returns `Some(self.mat)`). -/
def matOpt (s : Sphere) : Option ℕ := some s.mat

/-- `let oc = self.center - r.origin()` (src/src/sphere.rs:50). -/
def oc (s : Sphere) (r : Ray) : Vec3 := s.center - r.orig

/-- `let a = r.direction().length_squared()` (src/src/sphere.rs:51). -/
def qa (_s : Sphere) (r : Ray) : ℚ := r.dir.lengthSquared

/-- `let h = r.direction().dot(oc)` (src/src/sphere.rs:52). -/
def qh (s : Sphere) (r : Ray) : ℚ := r.dir.dot (s.oc r)

/-- `let c = oc.length_squared() - radius * radius` (src/src/sphere.rs:53). -/
def qc (s : Sphere) (r : Ray) : ℚ := (s.oc r).lengthSquared - s.radius * s.radius

/-- `let discriminant = h * h - a * c` (src/src/sphere.rs:55). -/
def disc (s : Sphere) (r : Ray) : ℚ := s.qh r * s.qh r - s.qa r * s.qc r

/-- The first candidate root `(h - sqrtd) / a` (src/src/sphere.rs:63). -/
def root1 (s : Sphere) (r : Ray) : ℚ := (s.qh r - ratSqrt (s.disc r)) / s.qa r

/-- The fallback root `(h + sqrtd) / a` (src/src/sphere.rs:65). -/
def root2 (s : Sphere) (r : Ray) : ℚ := (s.qh r + ratSqrt (s.disc r)) / s.qa r

/-- The record update on a successful hit (src/src/sphere.rs:71-75):
`rec.t = root; rec.p = r.at(rec.t); rec.normal = (rec.p - center) / radius;`
then `set_face_normal` with the same outward normal. -/
def finish (s : Sphere) (r : Ray) (rec : HitRecord) (root : ℚ) : HitRecord :=
  let t := root
  let p := r.at t
  let rec1 : HitRecord := { rec with t := t, p := p, normal := (p - s.center) / s.radius }
  let outward_normal := (p - s.center) / s.radius
  rec1.setFaceNormal r outward_normal

/-- `Sphere::hit` (src/src/sphere.rs:49-78): miss on negative discriminant;
otherwise take `(h - sqrtd) / a` if the interval strictly surrounds it, else
fall back to `(h + sqrtd) / a` under the same test, else miss.  The returned
pair is the `bool` result together with the (possibly updated) `&mut rec`. -/
def hit (s : Sphere) (r : Ray) (ray_t : Interval Qinf) (rec : HitRecord) :
    Bool × HitRecord :=
  if s.disc r < 0 then (false, rec)
  else if ray_t.surrounds ((s.root1 r : ℚ) : Qinf) then (true, s.finish r rec (s.root1 r))
  else if ray_t.surrounds ((s.root2 r : ℚ) : Qinf) then (true, s.finish r rec (s.root2 r))
  else (false, rec)

/-- The parametric distance `Sphere::hit` accepts, if any: the same root
selection as `Sphere::hit`, without the record plumbing. -/
def hitT (s : Sphere) (r : Ray) (ray_t : Interval Qinf) : Option ℚ :=
  if s.disc r < 0 then none
  else if ray_t.surrounds ((s.root1 r : ℚ) : Qinf) then some (s.root1 r)
  else if ray_t.surrounds ((s.root2 r : ℚ) : Qinf) then some (s.root2 r)
  else none

end Sphere

/-- `HittableList` (src/src/hittable/hittable_list.rs).  The only primitive
`Hittable` in the repository is `Sphere`, so the `Rc<dyn Hittable>` elements
are modelled as `Sphere` values. -/
structure HittableList where
  objects : List Sphere

/-- The loop of `HittableList::hit` (src/src/hittable/hittable_list.rs:32-40),
with the mutable state threaded explicitly: for each object the search
interval is narrowed to `(ray_t.min, closest_so_far)`; on a member hit,
`hit_anything` is set, `closest_so_far` becomes the member's `t`, the records
are swapped (`std::mem::swap(rec, &mut temp_rec)`) and `rec.mat` is set to
the object's material. -/
def hitLoop (r : Ray) (tmin : Qinf) :
    List Sphere → HitRecord → HitRecord → Bool → Qinf → Bool × HitRecord
  | [], _temp_rec, rec, hit_anything, _closest => (hit_anything, rec)
  | obj :: rest, temp_rec, rec, hit_anything, closest_so_far =>
    let res := obj.hit r (Interval.new tmin closest_so_far) temp_rec
    if res.1 then
      hitLoop r tmin rest rec { res.2 with mat := obj.matOpt } true ((res.2.t : ℚ) : Qinf)
    else
      hitLoop r tmin rest res.2 rec hit_anything closest_so_far

/-- `HittableList::hit` (src/src/hittable/hittable_list.rs:26-42):
`temp_rec` starts as a default record carrying over `rec.mat`;
`closest_so_far` starts at `ray_t.max`. -/
def HittableList.hit (l : HittableList) (r : Ray) (ray_t : Interval Qinf)
    (rec : HitRecord) : Bool × HitRecord :=
  hitLoop r ray_t.min l.objects { HitRecord.default with mat := rec.mat } rec false ray_t.max

/-- One output byte of `impl Display for Colour` (src/src/colour.rs:209-224)
composed with `Colour::linear_to_gamma` (src/src/colour.rs:120-126), computed
exactly.  The code computes `(256.0 * intensity.clamp(linear_to_gamma(c))) as u8`
with `intensity = Interval::new(0.0, 0.999)`.  For `c ≤ 0` the gamma value is
`0`, its clamp is `0`, and the byte is `0`.  For `c > 0` the gamma value is
`√c ≥ 0`, so the clamp is `min (√c) 0.999` and the byte is
`⌊256 * min (√c) 0.999⌋ = min ⌊256 * √c⌋ 255 = min ⌊√(65536 * c)⌋ 255
 = min (Nat.sqrt ⌊65536 * c⌋) 255`
(`⌊256 * 0.999⌋ = 255`, and `⌊√x⌋ = Nat.sqrt ⌊x⌋` for real `x ≥ 0`);
`gammaByte_eq_floor_sqrt` below proves this characterization against
`Real.sqrt`.  The `as u8` cast truncates, and the argument lies in
`[0, 255.744]`, so no saturation occurs. -/
def gammaByte (c : ℚ) : ℕ :=
  if 0 < c then min (Nat.sqrt (⌊(65536 : ℚ) * c⌋).toNat) 255 else 0

/-- `impl Display for Colour` (src/src/colour.rs:209-224): the three bytes
written as whitespace-separated decimal values. -/
def colourDisplay (c : Colour) : String :=
  toString (gammaByte c.r) ++ " " ++ toString (gammaByte c.g) ++ " " ++ toString (gammaByte c.b)

/-- The scatter behaviour of a material (`Material::scatter`,
src/src/material.rs): from the material (by identifier), the incoming ray and
the hit record, either `None` (scatter returned `false`) or
`Some (attenuation, scattered)` (the two out-parameters on `true`).  The
concrete materials draw on the thread-local RNG, so the claims below quantify
over all such functions. -/
abbrev ScatterFn := ℕ → Ray → HitRecord → Option (Colour × Ray)

/-- `Camera::ray_colour` (src/src/camera.rs:90-108).  `depth <= 0` returns
black; otherwise the world is queried on `Interval::new(0.001, f32::INFINITY)`
starting from a default record; on a hit, the record's material (if any)
scatters, giving `attenuation * ray_colour(scattered, depth - 1)`, with black
(`Colour::default()`) when there is no material or scatter returns `false`;
on a miss, the background gradient of the normalized ray direction. -/
def rayColour (scatter : ScatterFn) (r : Ray) (depth : ℕ) (world : HittableList) : Colour :=
  match depth with
  | 0 => Colour.new 0 0 0
  | Nat.succ d =>
    let res := world.hit r (Interval.new (((1 : ℚ)/1000 : ℚ) : Qinf) ⊤) HitRecord.default
    if res.1 then
      match res.2.mat with
      | some m =>
        match scatter m r res.2 with
        | some (attenuation, scattered) => attenuation * rayColour scatter scattered d world
        | none => Colour.default
      | none => Colour.default
    else
      let unit_direction := r.dir.normalize
      let a := (1 : ℚ)/2 * (unit_direction.y + 1)
      (1 - a) * Colour.new 1 1 1 + a * Colour.new ((1 : ℚ)/2) ((7 : ℚ)/10) 1

/-- `CameraBuilder` (src/src/camera.rs:141-153), restricted to the two fields
the `image_height` computation of `build` reads; the remaining fields feed
only the viewport geometry, which no claim concerns. -/
structure CameraBuilder where
  aspect_ratio : ℚ
  image_width : ℕ

/-- The `image_height` computation of `CameraBuilder::build`
(src/src/camera.rs:236-237):
`(image_width as f32 / aspect_ratio).floor() as u32`, then raised to `1` when
below `1`.  The `as u32` cast of a finite negative float saturates to `0`,
modelled by `Int.toNat` of the floor. -/
def CameraBuilder.imageHeight (b : CameraBuilder) : ℕ :=
  let image_height := (⌊(b.image_width : ℚ) / b.aspect_ratio⌋).toNat
  if image_height < 1 then 1 else image_height

/-! ## Helper lemmas -/

theorem Interval.clamp_eq_self {α : Type} [LinearOrder α] {i : Interval α} {y : α}
    (h1 : i.min ≤ y) (h2 : y ≤ i.max) : i.clamp y = y := by
  unfold Interval.clamp
  rw [if_neg (not_lt.mpr h1), if_neg (not_lt.mpr h2)]

theorem Interval.min_le_clamp {α : Type} [LinearOrder α] (i : Interval α)
    (hle : i.min ≤ i.max) (x : α) : i.min ≤ i.clamp x := by
  unfold Interval.clamp
  split_ifs with h1 h2
  · exact le_refl _
  · exact hle
  · exact le_of_not_lt h1

theorem Interval.clamp_le_max {α : Type} [LinearOrder α] (i : Interval α)
    (hle : i.min ≤ i.max) (x : α) : i.clamp x ≤ i.max := by
  unfold Interval.clamp
  split_ifs with h1 h2
  · exact hle
  · exact le_refl _
  · exact le_of_not_lt h2

theorem Interval.surrounds_eq_true {α : Type} [LinearOrder α] (i : Interval α) (x : α) :
    i.surrounds x = true ↔ (i.min < x ∧ x < i.max) := by
  simp [Interval.surrounds]

theorem Interval.surrounds_eq_false {α : Type} [LinearOrder α] (i : Interval α) (x : α) :
    i.surrounds x = false ↔ ¬ (i.min < x ∧ x < i.max) := by
  rw [← Interval.surrounds_eq_true]
  simp

namespace Sphere

theorem finish_t (s : Sphere) (r : Ray) (rec : HitRecord) (root : ℚ) :
    (s.finish r rec root).t = root := rfl

theorem hit_fst (s : Sphere) (r : Ray) (ray_t : Interval Qinf) (rec : HitRecord) :
    (s.hit r ray_t rec).1 = (s.hitT r ray_t).isSome := by
  unfold Sphere.hit Sphere.hitT
  split_ifs <;> rfl

theorem hit_t_of_hitT {s : Sphere} {r : Ray} {ray_t : Interval Qinf} {t : ℚ}
    (rec : HitRecord) (h : s.hitT r ray_t = some t) :
    (s.hit r ray_t rec).2.t = t := by
  unfold Sphere.hitT at h
  unfold Sphere.hit
  split_ifs at h ⊢ <;> simp_all [Sphere.finish_t]

theorem hit_of_hitT_none {s : Sphere} {r : Ray} {ray_t : Interval Qinf}
    (rec : HitRecord) (h : s.hitT r ray_t = none) :
    s.hit r ray_t rec = (false, rec) := by
  unfold Sphere.hitT at h
  unfold Sphere.hit
  split_ifs at h ⊢ <;> simp_all

theorem hitT_bounds {s : Sphere} {r : Ray} {ray_t : Interval Qinf} {t : ℚ}
    (h : s.hitT r ray_t = some t) :
    ray_t.min < ((t : ℚ) : Qinf) ∧ ((t : ℚ) : Qinf) < ray_t.max := by
  unfold Sphere.hitT at h
  split_ifs at h with h1 h2 h3
  · cases h
    exact (Interval.surrounds_eq_true _ _).mp h2
  · cases h
    exact (Interval.surrounds_eq_true _ _).mp h3

theorem root1_le_root2 {s : Sphere} {r : Ray} (ha : 0 < s.qa r) :
    s.root1 r ≤ s.root2 r := by
  unfold Sphere.root1 Sphere.root2
  have hs := ratSqrt_nonneg (s.disc r)
  exact (div_le_div_iff_of_pos_right ha).mpr (by linarith)

/-- Root selection restated with propositional conditions. -/
theorem hitT_eq_ite (s : Sphere) (r : Ray) (i : Interval Qinf) :
    s.hitT r i = if s.disc r < 0 then none
      else if i.min < ((s.root1 r : ℚ) : Qinf) ∧ ((s.root1 r : ℚ) : Qinf) < i.max then
        some (s.root1 r)
      else if i.min < ((s.root2 r : ℚ) : Qinf) ∧ ((s.root2 r : ℚ) : Qinf) < i.max then
        some (s.root2 r)
      else none := by
  unfold Sphere.hitT Interval.surrounds
  simp only [Bool.and_eq_true, decide_eq_true_eq]

/-- Narrowing the upper bound of the search interval: a sphere accepts a root
against `(m, c)` exactly when it accepts the same root against `(m, M)` and
that root is below `c` (for `c ≤ M` and a nonzero-direction ray). -/
theorem hitT_narrow (s : Sphere) (r : Ray) (ha : 0 < s.qa r)
    (m M c : Qinf) (hcM : c ≤ M) :
    s.hitT r (Interval.new m c) =
      (s.hitT r (Interval.new m M)).bind
        (fun t => if ((t : ℚ) : Qinf) < c then some t else none) := by
  rw [hitT_eq_ite, hitT_eq_ite]
  dsimp only [Interval.new]
  have h12 : ((s.root1 r : ℚ) : Qinf) ≤ ((s.root2 r : ℚ) : Qinf) := by
    exact_mod_cast root1_le_root2 ha
  by_cases hd : s.disc r < 0
  · rw [if_pos hd, if_pos hd]
    rfl
  · rw [if_neg hd, if_neg hd]
    by_cases hA : m < ((s.root1 r : ℚ) : Qinf) ∧ ((s.root1 r : ℚ) : Qinf) < c
    · rw [if_pos hA, if_pos ⟨hA.1, lt_of_lt_of_le hA.2 hcM⟩]
      simp [hA.2]
    · rw [if_neg hA]
      by_cases hB : m < ((s.root2 r : ℚ) : Qinf) ∧ ((s.root2 r : ℚ) : Qinf) < c
      · rw [if_pos hB]
        by_cases hAM : m < ((s.root1 r : ℚ) : Qinf) ∧ ((s.root1 r : ℚ) : Qinf) < M
        · exfalso
          have hc1 : ¬ ((s.root1 r : ℚ) : Qinf) < c := fun hlt => hA ⟨hAM.1, hlt⟩
          exact absurd hB.2 (not_lt.mpr (le_trans (not_lt.mp hc1) h12))
        · rw [if_neg hAM, if_pos ⟨hB.1, lt_of_lt_of_le hB.2 hcM⟩]
          simp [hB.2]
      · rw [if_neg hB]
        by_cases hAM : m < ((s.root1 r : ℚ) : Qinf) ∧ ((s.root1 r : ℚ) : Qinf) < M
        · rw [if_pos hAM]
          have hc1 : ¬ ((s.root1 r : ℚ) : Qinf) < c := fun hlt => hA ⟨hAM.1, hlt⟩
          simp [hc1]
        · rw [if_neg hAM]
          by_cases hBM : m < ((s.root2 r : ℚ) : Qinf) ∧ ((s.root2 r : ℚ) : Qinf) < M
          · rw [if_pos hBM]
            have hc2 : ¬ ((s.root2 r : ℚ) : Qinf) < c := fun hlt => hB ⟨hBM.1, hlt⟩
            simp [hc2]
          · rw [if_neg hBM]
            rfl

end Sphere

/-! ## Claim theorems -/

/-- C8: for every interval with `min ≤ max` and every value `x`, `clamp x`
lies in `[min, max]` and `clamp` is idempotent; `contains` holds at both
endpoints; `surrounds` fails at both endpoints. -/
theorem interval_clamp_contains_surrounds {α : Type} [LinearOrder α]
    (i : Interval α) (hle : i.min ≤ i.max) (x : α) :
    (i.min ≤ i.clamp x ∧ i.clamp x ≤ i.max) ∧
    i.clamp (i.clamp x) = i.clamp x ∧
    i.contains i.min = true ∧ i.contains i.max = true ∧
    i.surrounds i.min = false ∧ i.surrounds i.max = false := by
  refine ⟨⟨i.min_le_clamp hle x, i.clamp_le_max hle x⟩,
    Interval.clamp_eq_self (i.min_le_clamp hle x) (i.clamp_le_max hle x), ?_, ?_, ?_, ?_⟩
  · simp [Interval.contains, hle]
  · simp [Interval.contains, hle]
  · simp [Interval.surrounds]
  · simp [Interval.surrounds]

/-- Witness for C8 at the interval `[0, 10]` over `ℚ` and `x = 5`. -/
theorem interval_clamp_contains_surrounds_witness :
    ((Interval.new (0 : ℚ) 10).min ≤ (Interval.new (0 : ℚ) 10).max) ∧
    (((Interval.new (0 : ℚ) 10).min ≤ (Interval.new (0 : ℚ) 10).clamp 5 ∧
      (Interval.new (0 : ℚ) 10).clamp 5 ≤ (Interval.new (0 : ℚ) 10).max) ∧
     (Interval.new (0 : ℚ) 10).clamp ((Interval.new (0 : ℚ) 10).clamp 5) =
       (Interval.new (0 : ℚ) 10).clamp 5 ∧
     (Interval.new (0 : ℚ) 10).contains (Interval.new (0 : ℚ) 10).min = true ∧
     (Interval.new (0 : ℚ) 10).contains (Interval.new (0 : ℚ) 10).max = true ∧
     (Interval.new (0 : ℚ) 10).surrounds (Interval.new (0 : ℚ) 10).min = false ∧
     (Interval.new (0 : ℚ) 10).surrounds (Interval.new (0 : ℚ) 10).max = false) :=
  ⟨by norm_num [Interval.new],
   interval_clamp_contains_surrounds (Interval.new (0 : ℚ) 10)
     (by norm_num [Interval.new]) 5⟩

/-- C1 counterexample: `Metal::new` does not clamp a negative fuzz argument
into `[0, 1]` — with fuzz `-1` the stored fuzz is `-1`. -/
theorem metal_fuzz_not_clamped_below :
    (Metal.new (Colour.new 0 0 0) (-1)).fuzz = -1 ∧
    ¬ (0 ≤ (Metal.new (Colour.new 0 0 0) (-1)).fuzz ∧
       (Metal.new (Colour.new 0 0 0) (-1)).fuzz ≤ 1) := by
  have h : (Metal.new (Colour.new 0 0 0) (-1)).fuzz = -1 := by
    unfold Metal.new
    norm_num
  refine ⟨h, ?_⟩
  rw [h]
  norm_num

/-- C1 amended: `Metal::new` clamps fuzz from above only — the stored fuzz is
`fuzz` itself unless `fuzz > 1`, in which case it is `1`; hence the stored
fuzz is always at most `1`, and lies in `[0, 1]` whenever the argument is
nonnegative. -/
theorem metal_fuzz_clamped_above (albedo : Colour) (fuzz : ℚ) :
    (Metal.new albedo fuzz).fuzz = (if fuzz > 1 then 1 else fuzz) ∧
    (Metal.new albedo fuzz).fuzz ≤ 1 ∧
    (0 ≤ fuzz → 0 ≤ (Metal.new albedo fuzz).fuzz ∧ (Metal.new albedo fuzz).fuzz ≤ 1) := by
  unfold Metal.new
  refine ⟨rfl, ?_, ?_⟩
  · dsimp only
    split_ifs with h
    · exact le_refl 1
    · exact le_of_not_lt h
  · intro hf
    dsimp only
    constructor
    · split_ifs with h
      · norm_num
      · exact hf
    · split_ifs with h
      · exact le_refl 1
      · exact le_of_not_lt h

/-- Witness for C1 (amended) at fuzz `2`: the stored fuzz is clamped to `1`
and lies in `[0, 1]`. -/
theorem metal_fuzz_clamped_above_witness :
    (0 : ℚ) ≤ 2 ∧ 0 ≤ (Metal.new (Colour.new 0 0 0) 2).fuzz ∧
      (Metal.new (Colour.new 0 0 0) 2).fuzz ≤ 1 :=
  ⟨by norm_num, (metal_fuzz_clamped_above (Colour.new 0 0 0) 2).2.2 (by norm_num)⟩

/-- C9: for a positive aspect ratio, `CameraBuilder::build` derives
`image_height` as the floor of `image_width / aspect_ratio` clamped to a
minimum of `1`, so the built height is always at least `1`. -/
theorem camera_image_height (b : CameraBuilder) (_har : 0 < b.aspect_ratio) :
    b.imageHeight = max 1 (⌊(b.image_width : ℚ) / b.aspect_ratio⌋).toNat ∧
    1 ≤ b.imageHeight := by
  unfold CameraBuilder.imageHeight
  dsimp only
  constructor
  · split_ifs with h <;> omega
  · split_ifs with h <;> omega

/-- Witness for C9 at width `2`, aspect ratio `4` (the quotient floors to
zero and the height is clamped up to `1`). -/
theorem camera_image_height_witness :
    (0 : ℚ) < (CameraBuilder.mk 4 2).aspect_ratio ∧
    ((CameraBuilder.mk 4 2).imageHeight =
       max 1 (⌊((CameraBuilder.mk 4 2).image_width : ℚ) /
         (CameraBuilder.mk 4 2).aspect_ratio⌋).toNat ∧
     1 ≤ (CameraBuilder.mk 4 2).imageHeight) :=
  ⟨by norm_num, camera_image_height (CameraBuilder.mk 4 2) (by norm_num)⟩

/-- C7: after `set_face_normal` with a unit-length outward normal, the stored
normal points against the incoming ray direction (their dot product is not
positive), and `front_face` holds exactly when the ray direction's dot product
with the geometric outward normal is negative. -/
theorem set_face_normal_spec (rec : HitRecord) (r : Ray) (outward_normal : Vec3)
    (_hunit : outward_normal.lengthSquared = 1) :
    ¬ (0 < r.dir.dot ((rec.setFaceNormal r outward_normal).normal)) ∧
    ((rec.setFaceNormal r outward_normal).front_face = true ↔
      r.dir.dot outward_normal < 0) := by
  have hneg : r.dir.dot ((-1 : ℚ) * outward_normal) = -(r.dir.dot outward_normal) := by
    simp only [Vec3.dot, Vec3.smul_def]
    ring
  by_cases h : r.dir.dot outward_normal < 0
  · have hn : (rec.setFaceNormal r outward_normal).normal = outward_normal := by
      simp [HitRecord.setFaceNormal, h]
    have hf : (rec.setFaceNormal r outward_normal).front_face = true := by
      simp [HitRecord.setFaceNormal, h]
    refine ⟨?_, ?_⟩
    · rw [hn]
      linarith
    · rw [hf]
      simp [h]
  · have hn : (rec.setFaceNormal r outward_normal).normal = (-1 : ℚ) * outward_normal := by
      simp [HitRecord.setFaceNormal, h]
    have hf : (rec.setFaceNormal r outward_normal).front_face = false := by
      simp [HitRecord.setFaceNormal, h]
    refine ⟨?_, ?_⟩
    · rw [hn, hneg]
      have := le_of_not_lt h
      linarith
    · rw [hf]
      simp [h]

/-- Witness for C7: ray direction `(0, 0, -1)` against outward normal
`(0, 0, 1)` on the default record. -/
theorem set_face_normal_spec_witness :
    Vec3.lengthSquared ⟨0, 0, 1⟩ = 1 ∧
    (¬ (0 < Vec3.dot (Ray.mk ⟨0, 0, 0⟩ ⟨0, 0, -1⟩).dir
        ((HitRecord.default.setFaceNormal (Ray.mk ⟨0, 0, 0⟩ ⟨0, 0, -1⟩) ⟨0, 0, 1⟩).normal)) ∧
     ((HitRecord.default.setFaceNormal (Ray.mk ⟨0, 0, 0⟩ ⟨0, 0, -1⟩) ⟨0, 0, 1⟩).front_face = true ↔
       Vec3.dot (Ray.mk ⟨0, 0, 0⟩ ⟨0, 0, -1⟩).dir ⟨0, 0, 1⟩ < 0)) :=
  ⟨by norm_num [Vec3.lengthSquared, Vec3.dot],
   set_face_normal_spec HitRecord.default (Ray.mk ⟨0, 0, 0⟩ ⟨0, 0, -1⟩) ⟨0, 0, 1⟩
     (by norm_num [Vec3.lengthSquared, Vec3.dot])⟩

theorem ratSqrt_one : ratSqrt 1 = 1 := by
  unfold ratSqrt
  rw [show (1 : ℚ).num = 1 from rfl, show (1 : ℚ).den = 1 from rfl]
  norm_num

/-- C3: `Sphere::hit` root selection — with `a = |dir|²`, `h = dir ⬝ oc`,
`c = |oc|² − radius²` and discriminant `d = h² − a·c`: a negative
discriminant is a miss; otherwise the root `(h − √d)/a` is accepted when the
search interval strictly surrounds it, else `(h + √d)/a` under the same test,
else a miss; on acceptance the record's `t` is the accepted root. -/
theorem sphere_hit_root_selection (s : Sphere) (r : Ray) (ray_t : Interval Qinf)
    (rec : HitRecord) (a h c d root1 root2 : ℚ)
    (hA : a = r.dir.lengthSquared)
    (hH : h = r.dir.dot (s.center - r.orig))
    (hC : c = (s.center - r.orig).lengthSquared - s.radius * s.radius)
    (hD : d = h * h - a * c)
    (h1 : root1 = (h - ratSqrt d) / a)
    (h2 : root2 = (h + ratSqrt d) / a) :
    (d < 0 → s.hit r ray_t rec = (false, rec)) ∧
    (0 ≤ d → ray_t.surrounds ((root1 : ℚ) : Qinf) = true →
       (s.hit r ray_t rec).1 = true ∧ (s.hit r ray_t rec).2.t = root1) ∧
    (0 ≤ d → ray_t.surrounds ((root1 : ℚ) : Qinf) = false →
       ray_t.surrounds ((root2 : ℚ) : Qinf) = true →
       (s.hit r ray_t rec).1 = true ∧ (s.hit r ray_t rec).2.t = root2) ∧
    (0 ≤ d → ray_t.surrounds ((root1 : ℚ) : Qinf) = false →
       ray_t.surrounds ((root2 : ℚ) : Qinf) = false →
       s.hit r ray_t rec = (false, rec)) := by
  have eA : s.qa r = a := hA.symm
  have eH : s.qh r = h := hH.symm
  have eC : s.qc r = c := hC.symm
  have eD : s.disc r = d := by
    rw [hD, ← eH, ← eA, ← eC]
    rfl
  have e1 : s.root1 r = root1 := by
    rw [h1, ← eH, ← eD, ← eA]
    rfl
  have e2 : s.root2 r = root2 := by
    rw [h2, ← eH, ← eD, ← eA]
    rfl
  refine ⟨?_, ?_, ?_, ?_⟩
  · intro hlt
    unfold Sphere.hit
    rw [eD, if_pos hlt]
  · intro hge hs1
    unfold Sphere.hit
    rw [eD, e1, if_neg (not_lt.mpr hge), if_pos hs1]
    exact ⟨rfl, Sphere.finish_t s r rec root1⟩
  · intro hge hs1 hs2
    have hns1 : ¬ (ray_t.surrounds ((root1 : ℚ) : Qinf) = true) := by simp [hs1]
    unfold Sphere.hit
    rw [eD, e1, e2, if_neg (not_lt.mpr hge), if_neg hns1, if_pos hs2]
    exact ⟨rfl, Sphere.finish_t s r rec root2⟩
  · intro hge hs1 hs2
    have hns1 : ¬ (ray_t.surrounds ((root1 : ℚ) : Qinf) = true) := by simp [hs1]
    have hns2 : ¬ (ray_t.surrounds ((root2 : ℚ) : Qinf) = true) := by simp [hs2]
    unfold Sphere.hit
    rw [eD, e1, e2, if_neg (not_lt.mpr hge), if_neg hns1, if_neg hns2]

/-- Witness for C3: the sphere centred at `(0,0,-2)` with radius `1`, hit by
the ray from the origin towards `(0,0,-1)` on the interval `(0, 100)`:
discriminant `1`, first root `1` accepted, `t = 1`. -/
theorem sphere_hit_root_selection_witness :
    (0 : ℚ) ≤ 1 ∧
    (Interval.new ((0 : ℚ) : Qinf) ((100 : ℚ) : Qinf)).surrounds ((1 : ℚ) : Qinf) = true ∧
    ((Sphere.mk ⟨0, 0, -2⟩ 1 7).hit (Ray.mk ⟨0, 0, 0⟩ ⟨0, 0, -1⟩)
        (Interval.new ((0 : ℚ) : Qinf) ((100 : ℚ) : Qinf)) HitRecord.default).1 = true ∧
    ((Sphere.mk ⟨0, 0, -2⟩ 1 7).hit (Ray.mk ⟨0, 0, 0⟩ ⟨0, 0, -1⟩)
        (Interval.new ((0 : ℚ) : Qinf) ((100 : ℚ) : Qinf)) HitRecord.default).2.t = 1 := by
  have hs1 : (Interval.new ((0 : ℚ) : Qinf) ((100 : ℚ) : Qinf)).surrounds
      ((1 : ℚ) : Qinf) = true := by
    rw [Interval.surrounds_eq_true]
    constructor
    · show ((0 : ℚ) : Qinf) < ((1 : ℚ) : Qinf)
      exact_mod_cast (by norm_num : (0 : ℚ) < 1)
    · show ((1 : ℚ) : Qinf) < ((100 : ℚ) : Qinf)
      exact_mod_cast (by norm_num : (1 : ℚ) < 100)
  have happ := (sphere_hit_root_selection (Sphere.mk ⟨0, 0, -2⟩ 1 7)
      (Ray.mk ⟨0, 0, 0⟩ ⟨0, 0, -1⟩)
      (Interval.new ((0 : ℚ) : Qinf) ((100 : ℚ) : Qinf)) HitRecord.default
      1 2 3 1 1 3
      (by norm_num [Vec3.lengthSquared, Vec3.dot])
      (by norm_num [Vec3.dot, Vec3.sub_def])
      (by norm_num [Vec3.lengthSquared, Vec3.dot, Vec3.sub_def])
      (by norm_num)
      (by rw [ratSqrt_one]; norm_num)
      (by rw [ratSqrt_one]; norm_num)).2.1 (by norm_num) hs1
  exact ⟨by norm_num, hs1, happ⟩

theorem Colour.components (k1 k2 : ℚ) (c1 c2 : Colour) :
    k1 * c1 + k2 * c2 =
      Colour.new (k1 * c1.r + k2 * c2.r) (k1 * c1.g + k2 * c2.g) (k1 * c1.b + k2 * c2.b) := rfl

theorem Colour.new_eq {r1 g1 b1 r2 g2 b2 : ℚ} (hr : r1 = r2) (hg : g1 = g2) (hb : b1 = b2) :
    Colour.new r1 g1 b1 = Colour.new r2 g2 b2 := by
  rw [hr, hg, hb]

/-- A scatter behaviour that absorbs everything (`scatter` returns `false`). -/
def scatterNone : ScatterFn := fun _ _ _ => none

/-- C6: with a positive depth and a scene of zero primitives, `ray_colour`
returns the background gradient `(1−a)·(1,1,1) + a·(0.5,0.7,1.0)` for
`a = 0.5·(unit_direction.y + 1)`; at `unit_direction.y = −1` the result is
white, at `unit_direction.y = 1` it is `(0.5, 0.7, 1.0)`. -/
theorem ray_colour_empty_background (scatter : ScatterFn) (r : Ray) (depth : ℕ)
    (hdepth : 0 < depth) (u : Vec3) (a : ℚ)
    (hu : u = r.dir.normalize)
    (ha : a = 1/2 * (u.y + 1)) :
    rayColour scatter r depth (HittableList.mk []) =
      (1 - a) * Colour.new 1 1 1 + a * Colour.new (1/2) (7/10) 1 ∧
    (u.y = -1 → rayColour scatter r depth (HittableList.mk []) = Colour.new 1 1 1) ∧
    (u.y = 1 → rayColour scatter r depth (HittableList.mk []) =
      Colour.new (1/2) (7/10) 1) := by
  obtain ⟨d, rfl⟩ : ∃ d, depth = d + 1 := ⟨depth - 1, by omega⟩
  subst ha hu
  have hmain : rayColour scatter r (d + 1) (HittableList.mk []) =
      (1 - 1/2 * (r.dir.normalize.y + 1)) * Colour.new 1 1 1 +
        1/2 * (r.dir.normalize.y + 1) * Colour.new (1/2) (7/10) 1 := rfl
  refine ⟨hmain, ?_, ?_⟩
  · intro hy
    rw [hmain, hy, Colour.components]
    apply Colour.new_eq <;> norm_num [Colour.new, Colour.r, Colour.g, Colour.b]
  · intro hy
    rw [hmain, hy, Colour.components]
    apply Colour.new_eq <;> norm_num [Colour.new, Colour.r, Colour.g, Colour.b]

/-- Witness for C6: a straight-down ray (normalized direction `(0,−1,0)`)
against the empty scene at depth `1` yields pure white. -/
theorem ray_colour_empty_background_witness :
    0 < 1 ∧ (Ray.mk Vec3.zero ⟨0, -1, 0⟩).dir.normalize.y = -1 ∧
    rayColour scatterNone (Ray.mk Vec3.zero ⟨0, -1, 0⟩) 1 (HittableList.mk []) =
      Colour.new 1 1 1 := by
  have hy : (Ray.mk Vec3.zero ⟨0, -1, 0⟩).dir.normalize.y = -1 := by
    show (Vec3.mk 0 (-1) 0).normalize.y = -1
    unfold Vec3.normalize Vec3.length
    rw [show (Vec3.mk 0 (-1) 0).lengthSquared = 1 by
      norm_num [Vec3.lengthSquared, Vec3.dot]]
    rw [ratSqrt_one]
    show (-1 : ℚ) / 1 = -1
    norm_num
  exact ⟨by norm_num, hy,
    (ray_colour_empty_background scatterNone (Ray.mk Vec3.zero ⟨0, -1, 0⟩) 1
      (by norm_num) _ _ rfl rfl).2.1 hy⟩

/-- C5: `Camera::ray_colour` at depth `0` returns black for every ray, every
scatter behaviour, and every scene. -/
theorem ray_colour_depth_zero (scatter : ScatterFn) (r : Ray) (world : HittableList) :
    rayColour scatter r 0 world = Colour.new 0 0 0 := rfl

theorem gammaByte_nonpos {c : ℚ} (hc : ¬ 0 < c) : gammaByte c = 0 := by
  unfold gammaByte
  rw [if_neg hc]

/-- Faithfulness of `gammaByte` for positive channels: it computes exactly
`⌊256 * min (√c) 0.999⌋`, the byte `impl Display for Colour` produces (the
clamp of `√c ≥ 0` to `[0, 0.999]` is `min (√c) 0.999`, and the `as u8` cast
truncates a value in `[0, 255.744]`). -/
theorem gammaByte_eq_floor_sqrt (c : ℚ) (hc : 0 < c) :
    (gammaByte c : ℤ) = ⌊(256 : ℝ) * min (Real.sqrt (c : ℝ)) (999/1000 : ℝ)⌋ := by
  have hx : (0 : ℝ) < (c : ℝ) := by exact_mod_cast hc
  set n : ℕ := (⌊(65536 : ℚ) * c⌋).toNat with hn
  set k : ℕ := Nat.sqrt n with hk
  have hfl_nonneg : (0 : ℤ) ≤ ⌊(65536 : ℚ) * c⌋ := Int.floor_nonneg.mpr (by positivity)
  have hnz : ((n : ℤ)) = ⌊(65536 : ℚ) * c⌋ := by
    rw [hn]
    exact Int.toNat_of_nonneg hfl_nonneg
  have hb1 : ((n : ℝ)) ≤ 65536 * (c : ℝ) := by
    have h1 : ((⌊(65536 : ℚ) * c⌋ : ℚ)) ≤ (65536 : ℚ) * c := Int.floor_le _
    have h2 : ((n : ℚ)) ≤ (65536 : ℚ) * c := by
      rw [show ((n : ℚ)) = ((n : ℤ) : ℚ) by push_cast; ring, hnz]
      exact h1
    calc ((n : ℝ)) = (((n : ℚ)) : ℝ) := by push_cast; ring
    _ ≤ (((65536 : ℚ) * c : ℚ) : ℝ) := by exact_mod_cast h2
    _ = 65536 * (c : ℝ) := by push_cast; ring
  have hb2 : 65536 * (c : ℝ) < (n : ℝ) + 1 := by
    have h1 : (65536 : ℚ) * c < (⌊(65536 : ℚ) * c⌋ : ℚ) + 1 := Int.lt_floor_add_one _
    have h2 : (65536 : ℚ) * c < ((n : ℚ)) + 1 := by
      rw [show ((n : ℚ)) = ((n : ℤ) : ℚ) by push_cast; ring, hnz]
      exact h1
    calc 65536 * (c : ℝ) = (((65536 : ℚ) * c : ℚ) : ℝ) := by push_cast; ring
    _ < (((n : ℚ) + 1 : ℚ) : ℝ) := by exact_mod_cast h2
    _ = (n : ℝ) + 1 := by push_cast; ring
  have hs : Real.sqrt (65536 * (c : ℝ)) = 256 * Real.sqrt (c : ℝ) := by
    rw [show (65536 : ℝ) = 256 ^ 2 by norm_num]
    rw [Real.sqrt_mul (by positivity) (c : ℝ), Real.sqrt_sq (by norm_num : (0 : ℝ) ≤ 256)]
  have hlow : ((k : ℝ)) ≤ 256 * Real.sqrt (c : ℝ) := by
    rw [← hs]
    refine (Real.le_sqrt (by positivity) (by positivity)).mpr ?_
    have hkk : ((k : ℝ)) ^ 2 ≤ (n : ℝ) := by
      have := Nat.sqrt_le n
      calc ((k : ℝ)) ^ 2 = ((k * k : ℕ) : ℝ) := by push_cast; ring
      _ ≤ (n : ℝ) := by exact_mod_cast this
    exact le_trans hkk hb1
  have hhigh : 256 * Real.sqrt (c : ℝ) < (k : ℝ) + 1 := by
    rw [← hs]
    refine (Real.sqrt_lt' (by positivity)).mpr ?_
    have hkk : ((n : ℝ)) + 1 ≤ ((k : ℝ) + 1) ^ 2 := by
      have := Nat.lt_succ_sqrt n
      have h2 : n + 1 ≤ (k + 1) * (k + 1) := this
      calc ((n : ℝ)) + 1 = ((n + 1 : ℕ) : ℝ) := by push_cast; ring
      _ ≤ (((k + 1) * (k + 1) : ℕ) : ℝ) := by exact_mod_cast h2
      _ = ((k : ℝ) + 1) ^ 2 := by push_cast; ring
    exact lt_of_lt_of_le hb2 hkk
  have hkfloor : ((k : ℤ)) = ⌊(256 : ℝ) * Real.sqrt (c : ℝ)⌋ := by
    symm
    rw [Int.floor_eq_iff]
    constructor
    · exact_mod_cast hlow
    · push_cast
      exact hhigh
  have hgb : gammaByte c = min k 255 := by
    unfold gammaByte
    rw [if_pos hc]
  rcases le_or_lt (Real.sqrt (c : ℝ)) (999/1000 : ℝ) with hle | hlt
  · rw [min_eq_left hle, hgb]
    have h255 : k ≤ 255 := by
      by_contra hcon
      push_neg at hcon
      have h1 : (256 : ℝ) ≤ (k : ℝ) := by exact_mod_cast hcon
      have h2 : 256 * Real.sqrt (c : ℝ) ≤ 256 * (999/1000 : ℝ) := by nlinarith
      nlinarith
    rw [min_eq_left h255]
    exact hkfloor
  · rw [min_eq_right (le_of_lt hlt), hgb]
    have h255 : 255 ≤ k := by
      by_contra hcon
      push_neg at hcon
      have h1 : ((k : ℝ)) ≤ 254 := by exact_mod_cast Nat.le_of_lt_succ hcon
      nlinarith
    rw [min_eq_right h255]
    rw [show (256 : ℝ) * (999/1000 : ℝ) = 255744/1000 by norm_num]
    symm
    rw [Int.floor_eq_iff]
    norm_num

theorem gammaByte_half : gammaByte (1/2) = 181 := by
  unfold gammaByte
  rw [if_pos (by norm_num : (0 : ℚ) < 1/2)]
  rw [show (65536 : ℚ) * (1/2) = 32768 by norm_num]
  rw [show (⌊(32768 : ℚ)⌋) = (32768 : ℤ) by simp]
  rw [show Int.toNat 32768 = 32768 from rfl]
  have h : Nat.sqrt 32768 = 181 := by norm_num
  omega

theorem gammaByte_one : gammaByte 1 = 255 := by
  unfold gammaByte
  rw [if_pos (by norm_num : (0 : ℚ) < 1)]
  rw [show (65536 : ℚ) * 1 = 65536 by norm_num]
  rw [show (⌊(65536 : ℚ)⌋) = (65536 : ℤ) by simp]
  rw [show Int.toNat 65536 = 65536 from rfl]
  have h : Nat.sqrt 65536 = 256 := by norm_num
  omega

theorem gammaByte_ten : gammaByte 10 = 255 := by
  unfold gammaByte
  rw [if_pos (by norm_num : (0 : ℚ) < 10)]
  rw [show (65536 : ℚ) * 10 = 655360 by norm_num]
  rw [show (⌊(655360 : ℚ)⌋) = (655360 : ℤ) by simp]
  rw [show Int.toNat 655360 = 655360 from rfl]
  have h : Nat.sqrt 655360 = 809 := by norm_num
  omega

/-- C4: the colour output codec — `linear_to_gamma` (square root for positive
input, `0` otherwise), clamp to `[0, 0.999]`, scale by `256`, truncate —
renders `Colour(0, 0.5, 1.0)` as `"0 181 255"` and `Colour(-0.5, 10.0, -10.0)`
as `"0 255 0"`, and every channel byte lies in `[0, 255]`. -/
theorem colour_display_codec :
    colourDisplay (Colour.new 0 (1/2) 1) = "0 181 255" ∧
    colourDisplay (Colour.new (-(1/2)) 10 (-10)) = "0 255 0" ∧
    ∀ c : ℚ, gammaByte c ≤ 255 := by
  refine ⟨?_, ?_, ?_⟩
  · have h1 : gammaByte (Colour.new 0 (1/2) 1).r = 0 :=
      gammaByte_nonpos (by norm_num [Colour.new, Colour.r])
    have h2 : gammaByte (Colour.new 0 (1/2) 1).g = 181 := gammaByte_half
    have h3 : gammaByte (Colour.new 0 (1/2) 1).b = 255 := gammaByte_one
    unfold colourDisplay
    rw [h1, h2, h3]
    rfl
  · have h1 : gammaByte (Colour.new (-(1/2)) 10 (-10)).r = 0 :=
      gammaByte_nonpos (by norm_num [Colour.new, Colour.r])
    have h2 : gammaByte (Colour.new (-(1/2)) 10 (-10)).g = 255 := gammaByte_ten
    have h3 : gammaByte (Colour.new (-(1/2)) 10 (-10)).b = 0 :=
      gammaByte_nonpos (by norm_num [Colour.new, Colour.b])
    unfold colourDisplay
    rw [h1, h2, h3]
    rfl
  · intro c
    unfold gammaByte
    split_ifs with h
    · exact min_le_right _ _
    · exact Nat.zero_le _

theorem Sphere.hit_miss {s : Sphere} {r : Ray} {ray_t : Interval Qinf} {rec : HitRecord}
    (h : (s.hit r ray_t rec).1 = false) : (s.hit r ray_t rec).2 = rec := by
  have hfst := s.hit_fst r ray_t rec
  rw [h] at hfst
  have hn : s.hitT r ray_t = none := by
    cases hh : s.hitT r ray_t with
    | none => rfl
    | some t =>
      rw [hh] at hfst
      simp at hfst
  rw [Sphere.hit_of_hitT_none rec hn]

theorem hitLoop_fst_true (r : Ray) (tmin : Qinf) :
    ∀ (objs : List Sphere) (temp rec : HitRecord) (closest : Qinf),
      (hitLoop r tmin objs temp rec true closest).1 = true := by
  intro objs
  induction objs with
  | nil => intro temp rec closest; rfl
  | cons s rest ih =>
    intro temp rec closest
    simp only [hitLoop]
    split
    · exact ih _ _ _
    · exact ih _ _ _

theorem hitLoop_miss (r : Ray) (tmin : Qinf) :
    ∀ (objs : List Sphere) (temp rec : HitRecord) (hit : Bool) (closest : Qinf),
      (hitLoop r tmin objs temp rec hit closest).1 = false →
      (hitLoop r tmin objs temp rec hit closest).2 = rec := by
  intro objs
  induction objs with
  | nil => intro temp rec hit closest _; rfl
  | cons s rest ih =>
    intro temp rec hit closest h
    simp only [hitLoop] at h ⊢
    by_cases hres : (s.hit r (Interval.new tmin closest) temp).1 = true
    · rw [if_pos hres] at h ⊢
      exfalso
      rw [hitLoop_fst_true r tmin rest _ _ _] at h
      cases h
    · rw [if_neg hres] at h ⊢
      exact ih _ _ _ _ h

theorem filterMap_narrow_list {α : Type} (f g : α → Option ℚ) (p : ℚ → Prop)
    [DecidablePred p] (l : List α)
    (h : ∀ x, g x = (f x).bind (fun t => if p t then some t else none)) :
    l.filterMap g = (l.filterMap f).filter (fun t => decide (p t)) := by
  induction l with
  | nil => rfl
  | cons x l ih =>
    rw [List.filterMap_cons, List.filterMap_cons, h x]
    cases hf : f x with
    | none =>
      simpa using ih
    | some t =>
      by_cases hp : p t
      · simp [hp, List.filter_cons, ih]
      · simp [hp, List.filter_cons, ih]

/-- The invariant of the `HittableList::hit` loop: its boolean result records
whether any member accepts a root against the current narrowed interval, a
fully-missing suffix leaves `rec` untouched, and on any acceptance the final
record's `t` is the minimum accepted `t` of the members against the interval
the loop entered with. -/
theorem hitLoop_spec (r : Ray) (tmin : Qinf) (ha : 0 < Vec3.lengthSquared r.dir) :
    ∀ (objs : List Sphere) (temp rec : HitRecord) (hit : Bool) (closest : Qinf),
      ((hitLoop r tmin objs temp rec hit closest).1 =
        (hit || !(objs.filterMap (fun s => s.hitT r (Interval.new tmin closest))).isEmpty)) ∧
      (objs.filterMap (fun s => s.hitT r (Interval.new tmin closest)) = [] →
        (hitLoop r tmin objs temp rec hit closest).2 = rec) ∧
      (objs.filterMap (fun s => s.hitT r (Interval.new tmin closest)) ≠ [] →
        (hitLoop r tmin objs temp rec hit closest).2.t ∈
          objs.filterMap (fun s => s.hitT r (Interval.new tmin closest)) ∧
        ∀ t ∈ objs.filterMap (fun s => s.hitT r (Interval.new tmin closest)),
          (hitLoop r tmin objs temp rec hit closest).2.t ≤ t) := by
  intro objs
  induction objs with
  | nil =>
    intro temp rec hit closest
    refine ⟨by simp [hitLoop], fun _ => rfl, fun hne => absurd rfl hne⟩
  | cons s rest ih =>
    intro temp rec hit closest
    cases hh : s.hitT r (Interval.new tmin closest) with
    | none =>
      have hs_eq : s.hit r (Interval.new tmin closest) temp = (false, temp) :=
        Sphere.hit_of_hitT_none temp hh
      simp only [hitLoop, hs_eq, List.filterMap_cons, hh]
      exact ih temp rec hit closest
    | some t0 =>
      have hfst : (s.hit r (Interval.new tmin closest) temp).1 = true := by
        rw [Sphere.hit_fst, hh]
        rfl
      have ht : (s.hit r (Interval.new tmin closest) temp).2.t = t0 :=
        Sphere.hit_t_of_hitT temp hh
      have hb2 : ((t0 : ℚ) : Qinf) < closest := (Sphere.hitT_bounds hh).2
      have hnarrow : rest.filterMap
          (fun s' => s'.hitT r (Interval.new tmin ((t0 : ℚ) : Qinf))) =
          (rest.filterMap (fun s' => s'.hitT r (Interval.new tmin closest))).filter
            (fun t => decide (((t : ℚ) : Qinf) < ((t0 : ℚ) : Qinf))) := by
        apply filterMap_narrow_list
        intro s'
        exact Sphere.hitT_narrow s' r ha tmin closest ((t0 : ℚ) : Qinf) (le_of_lt hb2)
      simp only [hitLoop, hfst, if_true, List.filterMap_cons, hh]
      generalize hgen : (s.hit r (Interval.new tmin closest) temp).2 = rec2
      rw [hgen] at ht
      rw [ht]
      obtain ⟨ih1, ih2, ih3⟩ := ih rec
        (HitRecord.mk rec2.p rec2.normal s.matOpt t0 rec2.front_face) true
        ((t0 : ℚ) : Qinf)
      refine ⟨by simp [ih1], by simp, ?_⟩
      intro _
      by_cases hts : rest.filterMap
          (fun s' => s'.hitT r (Interval.new tmin ((t0 : ℚ) : Qinf))) = []
      · have hrec := ih2 hts
        rw [hrec]
        show t0 ∈ _ ∧ _
        have hnone : ∀ u ∈ rest.filterMap (fun s' => s'.hitT r (Interval.new tmin closest)),
            ¬ (((u : ℚ) : Qinf) < ((t0 : ℚ) : Qinf)) := by
          intro u hu hlt
          have hmem : u ∈ (rest.filterMap
              (fun s' => s'.hitT r (Interval.new tmin closest))).filter
                (fun t => decide (((t : ℚ) : Qinf) < ((t0 : ℚ) : Qinf))) :=
            List.mem_filter.mpr ⟨hu, by simp [hlt]⟩
          rw [← hnarrow, hts] at hmem
          cases hmem
        constructor
        · exact List.mem_cons_self _ _
        · intro t htmem
          rcases List.mem_cons.mp htmem with rfl | hmem
          · exact le_refl _
          · have h1 := hnone t hmem
            have h2 : ((t0 : ℚ) : Qinf) ≤ ((t : ℚ) : Qinf) := not_lt.mp h1
            exact_mod_cast h2
      · obtain ⟨hmem, hlb⟩ := ih3 hts
        rw [hnarrow] at hmem
        have hmem' := List.mem_of_mem_filter hmem
        have hlt : (((hitLoop r tmin rest rec
            (HitRecord.mk rec2.p rec2.normal s.matOpt t0 rec2.front_face) true
            ((t0 : ℚ) : Qinf)).2.t : ℚ) : Qinf) < ((t0 : ℚ) : Qinf) := by
          have := List.of_mem_filter hmem
          simpa using this
        constructor
        · exact List.mem_cons_of_mem _ hmem'
        · intro t htmem
          rcases List.mem_cons.mp htmem with rfl | hmem2
          · exact le_of_lt (by exact_mod_cast hlt)
          · by_cases hcase : ((t : ℚ) : Qinf) < ((t0 : ℚ) : Qinf)
            · refine hlb t ?_
              rw [hnarrow]
              exact List.mem_filter.mpr ⟨hmem2, by simp [hcase]⟩
            · have h1 : t0 ≤ t := by exact_mod_cast not_lt.mp hcase
              have h2 : (hitLoop r tmin rest rec
                  (HitRecord.mk rec2.p rec2.normal s.matOpt t0 rec2.front_face) true
                  ((t0 : ℚ) : Qinf)).2.t < t0 := by exact_mod_cast hlt
              linarith

/-- C2: `HittableList::hit` is a min-reduction over the members' accepted
parametric distances — it reports a hit iff some member hits within the
search interval, the reported `t` is an accepted member `t` that is least
among all accepted member `t`s, and both the hit/miss outcome and the
reported `t` are invariant under permutation of the members.  (The ray
direction is required to be nonzero: a zero direction makes every root a
`0/0 = NaN` in `f32`, which every comparison rejects.) -/
theorem hittable_list_hit_min_reduction (l : HittableList) (r : Ray)
    (ray_t : Interval Qinf) (rec : HitRecord) (hdir : r.dir ≠ Vec3.zero) :
    (((l.hit r ray_t rec).1 = true) ↔ ∃ s ∈ l.objects, (s.hit r ray_t rec).1 = true) ∧
    ((l.hit r ray_t rec).1 = true →
      ∃ s ∈ l.objects, s.hitT r ray_t = some ((l.hit r ray_t rec).2.t)) ∧
    (∀ s ∈ l.objects, ∀ t : ℚ, s.hitT r ray_t = some t → (l.hit r ray_t rec).2.t ≤ t) ∧
    (∀ l' : HittableList, l.objects.Perm l'.objects →
      (l'.hit r ray_t rec).1 = (l.hit r ray_t rec).1 ∧
      ((l.hit r ray_t rec).1 = true →
        (l'.hit r ray_t rec).2.t = (l.hit r ray_t rec).2.t)) := by
  have ha : 0 < Vec3.lengthSquared r.dir := Vec3.lengthSquared_pos hdir
  have heta : Interval.new ray_t.min ray_t.max = ray_t := rfl
  obtain ⟨h1, h2, h3⟩ := hitLoop_spec r ray_t.min ha l.objects
    { HitRecord.default with mat := rec.mat } rec false ray_t.max
  rw [heta] at h1 h2 h3
  unfold HittableList.hit
  have key : (hitLoop r ray_t.min l.objects { HitRecord.default with mat := rec.mat }
      rec false ray_t.max).1 = true ↔
      l.objects.filterMap (fun s => s.hitT r ray_t) ≠ [] := by
    rw [h1]
    simp [List.isEmpty_iff]
  have hexists : l.objects.filterMap (fun s => s.hitT r ray_t) ≠ [] ↔
      ∃ s ∈ l.objects, (s.hit r ray_t rec).1 = true := by
    rw [Ne, List.filterMap_eq_nil_iff]
    push_neg
    constructor
    · rintro ⟨s, hs, hne⟩
      refine ⟨s, hs, ?_⟩
      rw [Sphere.hit_fst]
      cases hx : s.hitT r ray_t with
      | none => exact absurd hx hne
      | some t => rfl
    · rintro ⟨s, hs, hh⟩
      refine ⟨s, hs, ?_⟩
      rw [Sphere.hit_fst] at hh
      intro hn
      rw [hn] at hh
      cases hh
  refine ⟨key.trans hexists, ?_, ?_, ?_⟩
  · intro htrue
    have hne := key.mp htrue
    obtain ⟨hmem, _⟩ := h3 hne
    exact List.mem_filterMap.mp hmem
  · intro s hs t hT
    have hmem : t ∈ l.objects.filterMap (fun s => s.hitT r ray_t) :=
      List.mem_filterMap.mpr ⟨s, hs, hT⟩
    exact (h3 (List.ne_nil_of_mem hmem)).2 t hmem
  · intro l' hperm
    obtain ⟨h1', h2', h3'⟩ := hitLoop_spec r ray_t.min ha l'.objects
      { HitRecord.default with mat := rec.mat } rec false ray_t.max
    rw [heta] at h1' h2' h3'
    have hpmap : (l.objects.filterMap (fun s => s.hitT r ray_t)).Perm
        (l'.objects.filterMap (fun s => s.hitT r ray_t)) :=
      hperm.filterMap _
    have hnil_iff : l'.objects.filterMap (fun s => s.hitT r ray_t) = [] ↔
        l.objects.filterMap (fun s => s.hitT r ray_t) = [] := by
      constructor
      · intro h
        exact (hpmap.trans (by rw [h])).eq_nil
      · intro h
        exact (hpmap.symm.trans (by rw [h])).eq_nil
    constructor
    · rw [h1, h1']
      have hbool : (l'.objects.filterMap (fun s => s.hitT r ray_t)).isEmpty =
          (l.objects.filterMap (fun s => s.hitT r ray_t)).isEmpty := by
        by_cases hcase : l.objects.filterMap (fun s => s.hitT r ray_t) = []
        · rw [List.isEmpty_iff.mpr hcase, List.isEmpty_iff.mpr (hnil_iff.mpr hcase)]
        · have h1e : (l.objects.filterMap (fun s => s.hitT r ray_t)).isEmpty = false := by
            cases hE : (l.objects.filterMap (fun s => s.hitT r ray_t)).isEmpty with
            | false => rfl
            | true => exact absurd (List.isEmpty_iff.mp hE) hcase
          have h2e : (l'.objects.filterMap (fun s => s.hitT r ray_t)).isEmpty = false := by
            cases hE : (l'.objects.filterMap (fun s => s.hitT r ray_t)).isEmpty with
            | false => rfl
            | true => exact absurd (hnil_iff.mp (List.isEmpty_iff.mp hE)) hcase
          rw [h1e, h2e]
      rw [hbool]
    · intro htrue
      have hne := key.mp htrue
      have hne' : l'.objects.filterMap (fun s => s.hitT r ray_t) ≠ [] :=
        fun h => hne (hnil_iff.mp h)
      obtain ⟨hmem, hlb⟩ := h3 hne
      obtain ⟨hmem', hlb'⟩ := h3' hne'
      exact le_antisymm (hlb' _ (hpmap.mem_iff.mp hmem)) (hlb _ (hpmap.mem_iff.mpr hmem'))

/-- Witness for C2: the singleton scene containing the sphere at `(0,0,-2)`
with radius `1`, queried with the ray towards `(0,0,-1)` on `(0, 100)`. -/
theorem hittable_list_hit_min_reduction_witness :
    (Ray.mk ⟨0, 0, 0⟩ ⟨0, 0, -1⟩).dir ≠ Vec3.zero ∧
    (((HittableList.mk [Sphere.mk ⟨0, 0, -2⟩ 1 7]).hit (Ray.mk ⟨0, 0, 0⟩ ⟨0, 0, -1⟩)
        (Interval.new ((0 : ℚ) : Qinf) ((100 : ℚ) : Qinf)) HitRecord.default).1 = true ↔
      ∃ s ∈ [Sphere.mk ⟨0, 0, -2⟩ 1 7],
        (s.hit (Ray.mk ⟨0, 0, 0⟩ ⟨0, 0, -1⟩)
          (Interval.new ((0 : ℚ) : Qinf) ((100 : ℚ) : Qinf)) HitRecord.default).1 = true) :=
  ⟨by simp [Vec3.zero],
   (hittable_list_hit_min_reduction (HittableList.mk [Sphere.mk ⟨0, 0, -2⟩ 1 7])
     (Ray.mk ⟨0, 0, 0⟩ ⟨0, 0, -1⟩) (Interval.new ((0 : ℚ) : Qinf) ((100 : ℚ) : Qinf))
     HitRecord.default (by simp [Vec3.zero])).1⟩

/-- C10: whenever `Sphere::hit` or `HittableList::hit` returns `false`, the
caller's hit record is left unchanged. -/
theorem hit_miss_preserves_record (s : Sphere) (l : HittableList) (r : Ray)
    (ray_t : Interval Qinf) (rec : HitRecord) :
    ((s.hit r ray_t rec).1 = false → (s.hit r ray_t rec).2 = rec) ∧
    ((l.hit r ray_t rec).1 = false → (l.hit r ray_t rec).2 = rec) := by
  constructor
  · exact fun h => Sphere.hit_miss h
  · intro h
    unfold HittableList.hit at h ⊢
    exact hitLoop_miss r ray_t.min l.objects _ rec false ray_t.max h

/-- Witness for C10: a ray pointing straight up misses the sphere at
`(0,0,-2)` (negative discriminant); both the sphere query and the singleton
list query leave the default record untouched. -/
theorem hit_miss_preserves_record_witness :
    (((Sphere.mk ⟨0, 0, -2⟩ 1 7).hit (Ray.mk ⟨0, 0, 0⟩ ⟨0, 1, 0⟩)
        (Interval.new ((0 : ℚ) : Qinf) ((100 : ℚ) : Qinf)) HitRecord.default).1 = false) ∧
    (((HittableList.mk [Sphere.mk ⟨0, 0, -2⟩ 1 7]).hit (Ray.mk ⟨0, 0, 0⟩ ⟨0, 1, 0⟩)
        (Interval.new ((0 : ℚ) : Qinf) ((100 : ℚ) : Qinf)) HitRecord.default).1 = false) ∧
    (((Sphere.mk ⟨0, 0, -2⟩ 1 7).hit (Ray.mk ⟨0, 0, 0⟩ ⟨0, 1, 0⟩)
        (Interval.new ((0 : ℚ) : Qinf) ((100 : ℚ) : Qinf)) HitRecord.default).2 =
      HitRecord.default) ∧
    (((HittableList.mk [Sphere.mk ⟨0, 0, -2⟩ 1 7]).hit (Ray.mk ⟨0, 0, 0⟩ ⟨0, 1, 0⟩)
        (Interval.new ((0 : ℚ) : Qinf) ((100 : ℚ) : Qinf)) HitRecord.default).2 =
      HitRecord.default) := by
  have hd : (Sphere.mk ⟨0, 0, -2⟩ 1 7).disc (Ray.mk ⟨0, 0, 0⟩ ⟨0, 1, 0⟩) < 0 := by
    norm_num [Sphere.disc, Sphere.qh, Sphere.qa, Sphere.qc, Sphere.oc,
      Vec3.dot, Vec3.lengthSquared, Vec3.sub_def]
  have hs : ∀ rec : HitRecord, (Sphere.mk ⟨0, 0, -2⟩ 1 7).hit (Ray.mk ⟨0, 0, 0⟩ ⟨0, 1, 0⟩)
      (Interval.new ((0 : ℚ) : Qinf) ((100 : ℚ) : Qinf)) rec = (false, rec) := by
    intro rec
    unfold Sphere.hit
    rw [if_pos hd]
  have hsf : ((Sphere.mk ⟨0, 0, -2⟩ 1 7).hit (Ray.mk ⟨0, 0, 0⟩ ⟨0, 1, 0⟩)
      (Interval.new ((0 : ℚ) : Qinf) ((100 : ℚ) : Qinf)) HitRecord.default).1 = false := by
    rw [hs]
  have hall : ∀ temp : HitRecord, ((Sphere.mk ⟨0, 0, -2⟩ 1 7).hit (Ray.mk ⟨0, 0, 0⟩ ⟨0, 1, 0⟩)
      (Interval.new (Interval.new ((0 : ℚ) : Qinf) ((100 : ℚ) : Qinf)).min
        (Interval.new ((0 : ℚ) : Qinf) ((100 : ℚ) : Qinf)).max) temp).1 = false := by
    intro temp
    show ((Sphere.mk ⟨0, 0, -2⟩ 1 7).hit (Ray.mk ⟨0, 0, 0⟩ ⟨0, 1, 0⟩)
      (Interval.new ((0 : ℚ) : Qinf) ((100 : ℚ) : Qinf)) temp).1 = false
    rw [hs temp]
  have hlist : (HittableList.mk [Sphere.mk ⟨0, 0, -2⟩ 1 7]).hit (Ray.mk ⟨0, 0, 0⟩ ⟨0, 1, 0⟩)
      (Interval.new ((0 : ℚ) : Qinf) ((100 : ℚ) : Qinf)) HitRecord.default =
      (false, HitRecord.default) := by
    unfold HittableList.hit
    simp only [hitLoop]
    rw [if_neg (by rw [hall]; simp)]
  have hlf : ((HittableList.mk [Sphere.mk ⟨0, 0, -2⟩ 1 7]).hit (Ray.mk ⟨0, 0, 0⟩ ⟨0, 1, 0⟩)
      (Interval.new ((0 : ℚ) : Qinf) ((100 : ℚ) : Qinf)) HitRecord.default).1 = false := by
    rw [hlist]
  refine ⟨hsf, hlf, ?_, ?_⟩
  · exact (hit_miss_preserves_record (Sphere.mk ⟨0, 0, -2⟩ 1 7)
      (HittableList.mk [Sphere.mk ⟨0, 0, -2⟩ 1 7]) (Ray.mk ⟨0, 0, 0⟩ ⟨0, 1, 0⟩)
      (Interval.new ((0 : ℚ) : Qinf) ((100 : ℚ) : Qinf)) HitRecord.default).1 hsf
  · exact (hit_miss_preserves_record (Sphere.mk ⟨0, 0, -2⟩ 1 7)
      (HittableList.mk [Sphere.mk ⟨0, 0, -2⟩ 1 7]) (Ray.mk ⟨0, 0, 0⟩ ⟨0, 1, 0⟩)
      (Interval.new ((0 : ℚ) : Qinf) ((100 : ℚ) : Qinf)) HitRecord.default).2 hlf

end RayTracing
